import Mathlib

/-!
# Verification of the easymeds medicine price comparison server

Shallow embedding of `src/server.py`: the price parser `clean_price`, the
four source adapters (their extraction logic, with the fetched page text as
an explicit input), the orchestration loop of the `/api/search` endpoint,
and the sort/savings aggregation.  Prices are modelled as rationals; Python
strings are Lean strings (lists of characters).
-/

namespace EasyMeds

/-! ## Python string primitives used by the code -/

/-- Python `str.strip()` whitespace test (the characters relevant here). -/
def isPySpace (c : Char) : Bool := c.isWhitespace

/-- `text.replace(ch, '')` for a single character `ch`. -/
def removeChar (ch : Char) (l : List Char) : List Char := l.filter (fun c => c ≠ ch)

/-- `text.replace('Rs', '')`: remove non-overlapping occurrences of "Rs" left to right. -/
def removeRs : List Char → List Char
  | 'R' :: 's' :: rest => removeRs rest
  | c :: rest => c :: removeRs rest
  | [] => []

/-- `text.strip()` on a character list. -/
def pyStripList (l : List Char) : List Char :=
  ((l.dropWhile isPySpace).reverse.dropWhile isPySpace).reverse

/-- `text.strip()`. -/
def pyStrip (s : String) : String := ⟨pyStripList s.data⟩

/-- `text.split('\n')[0][:80]`: first line, truncated to 80 characters. -/
def firstLine80 (s : String) : String := ⟨(s.data.takeWhile (fun c => c ≠ '\n')).take 80⟩

/-- `medicine.replace(' ', rep)`: URL templating of the query. -/
def replaceSpaces (rep : List Char) : List Char → List Char
  | [] => []
  | c :: rest => (if c = ' ' then rep else [c]) ++ replaceSpaces rep rest

/-- Space-to-hyphen templating (Netmeds). -/
def hyphenate (s : String) : String := ⟨replaceSpaces ['-'] s.data⟩

/-- Space-to-`%20` templating (Apollo, PharmEasy, 1mg). -/
def percentEncode (s : String) : String := ⟨replaceSpaces ['%', '2', '0'] s.data⟩

/-- Value of a digit string (`int` of the run of decimal digits). -/
def digitsToNat (l : List Char) : Nat :=
  l.foldl (fun n c => 10 * n + (c.toNat - 48)) 0

/-! ## Price parser (`clean_price`, server.py lines 33-39) -/

/-- The regex match of `\d+\.?\d*` starting at `l` (whose head is a digit):
maximal digit run, optional dot, maximal digit run — returned as the pair
(integer digits, fraction digits). -/
def splitNum (l : List Char) : List Char × List Char :=
  let intPart := l.takeWhile Char.isDigit
  let rest := l.dropWhile Char.isDigit
  match rest with
  | '.' :: r => (intPart, r.takeWhile Char.isDigit)
  | _ => (intPart, [])

/-- `re.search(r'\d+\.?\d*', text)`: leftmost match (a match must start with a
digit, so the scan stops at the first digit in the text). -/
def findNumStr : List Char → Option (List Char × List Char)
  | [] => none
  | c :: rest => if c.isDigit then some (splitNum (c :: rest)) else findNumStr rest

/-- `float` of a matched `digits[.digits]` pattern: its exact decimal value. -/
def numValue (p : List Char × List Char) : ℚ :=
  (digitsToNat p.1 : ℚ) + (digitsToNat p.2 : ℚ) / ((10 : ℚ) ^ p.2.length)

/-- `re.search` followed by `float(match.group())`. -/
def findNum (l : List Char) : Option ℚ := (findNumStr l).map numValue

/-- `clean_price` (server.py lines 33-39).  `None`/`''` are falsy; then commas,
the rupee sign and `Rs` are removed in that order, the result stripped, and the
first `\d+\.?\d*` match converted to a number. -/
def clean_price (text : Option String) : Option ℚ :=
  match text with
  | none => none
  | some s =>
    if s = "" then none
    else
      findNum (pyStripList (removeRs (removeChar '₹' (removeChar ',' s.data))))

/-! ## Rupee-anchored price regexes used by the adapters -/

/-- Attempt of `₹\s*(\d+\.?\d*)` just after a `₹`: skip whitespace, then a
digit must follow; the group is the `\d+\.?\d*` match. -/
def rupeeSimpleAt (l : List Char) : Option (List Char × List Char) :=
  match l.dropWhile isPySpace with
  | c :: rest => if c.isDigit then some (splitNum (c :: rest)) else none
  | [] => none

/-- `re.search(r'₹\s*(\d+\.?\d*)', text)`: scan for the leftmost `₹` whose
attempt succeeds (used by `scrape_netmeds` and `scrape_1mg`). -/
def findRupeeSimple : List Char → Option (List Char × List Char)
  | [] => none
  | c :: rest =>
    if c = '₹' then
      match rupeeSimpleAt rest with
      | some p => some p
      | none => findRupeeSimple rest
    else findRupeeSimple rest

/-- The `(?:,\d+)*` part of the grouped price regex: greedily take `,digits`
groups, stopping before a comma not followed by a digit.  Structural fuel is
the length of the list, enough since each group consumes at least two
characters. -/
def commaGroups : Nat → List Char → List Char × List Char
  | 0, l => ([], l)
  | fuel + 1, ',' :: r =>
    let ds := r.takeWhile Char.isDigit
    if ds = [] then ([], ',' :: r)
    else
      let p := commaGroups fuel (r.dropWhile Char.isDigit)
      (',' :: (ds ++ p.1), p.2)
  | _ + 1, l => ([], l)

/-- Attempt of `₹\s*(\d+(?:,\d+)*(?:\.\d+)?)` just after a `₹`, returning the
captured group text (used by `scrape_apollo` and `scrape_pharmeasy`). -/
def rupeeGroupedAt (l : List Char) : Option (List Char) :=
  match l.dropWhile isPySpace with
  | c :: rest =>
    if c.isDigit then
      let body := c :: rest
      let d1 := body.takeWhile Char.isDigit
      let r1 := body.dropWhile Char.isDigit
      let p := commaGroups r1.length r1
      let dotPart : List Char :=
        match p.2 with
        | '.' :: r3 =>
          let ds := r3.takeWhile Char.isDigit
          if ds = [] then [] else '.' :: ds
        | _ => []
      some (d1 ++ p.1 ++ dotPart)
    else none
  | [] => none

/-- `re.search(r'₹\s*(\d+(?:,\d+)*(?:\.\d+)?)', text)`, returning group 1. -/
def findRupeeGrouped : List Char → Option (List Char)
  | [] => none
  | c :: rest =>
    if c = '₹' then
      match rupeeGroupedAt rest with
      | some g => some g
      | none => findRupeeGrouped rest
    else findRupeeGrouped rest

/-! ## Candidate results and the source adapters (server.py lines 41-198)

An adapter's network / DOM interaction is an explicit input: `none` stands
for any failure path (exception, timeout, missing container), `some t` for a
located product container whose rendered text is `t`.  Everything after that
point is translated from the code. -/

/-- One pharmacy's candidate price listing (the dict built by a scraper).
`url` is an `Option` because Apollo/PharmEasy store the raw `href` attribute,
which Python may bind to `None`. -/
structure Candidate where
  pharmacy : String
  medicine : String
  price : ℚ
  url : Option String
deriving DecidableEq, Repr

instance : Inhabited Candidate := ⟨⟨"", "", 0, none⟩⟩

/-- `scrape_netmeds` (lines 41-75): given the located product element's text,
return a candidate as soon as `₹\s*(\d+\.?\d*)` matches — the parsed value is
not checked for positivity. -/
def scrape_netmeds (medicine : String) (productText : Option String) : Option Candidate :=
  let url := "https://www.netmeds.com/catalogsearch/result/" ++ hyphenate medicine ++ "/all"
  match productText with
  | none => none
  | some t =>
    match findRupeeSimple t.data with
    | some p =>
      some { pharmacy := "Netmeds", medicine := firstLine80 t, price := numValue p,
             url := some url }
    | none => none

/-- Result of `product.find_element(By.TAG_NAME, 'a')` then
`get_attribute('href')`: `none` if the lookup raised (→ fall back to the
search url), `some h` if it returned, `h` being the possibly-`None` href. -/
abbrev LinkLookup := Option (Option String)

/-- What Apollo/PharmEasy compute from the card text (lines 89-90):
`price = clean_price(price_match.group(1)) if price_match else None`. -/
def cardPrice (t : String) : Option ℚ :=
  match findRupeeGrouped t.data with
  | some g => clean_price (some ⟨g⟩)
  | none => none

/-- Shared body of `scrape_apollo` and `scrape_pharmeasy` (lines 77-159):
match the grouped rupee regex, feed group 1 through `clean_price`, and keep
the candidate only if the price is truthy (non-`None` and nonzero). -/
def scrapeCard (pharmacy url : String) (medicine : String)
    (productText : Option String) (link : LinkLookup) : Option Candidate :=
  match productText with
  | none => none
  | some t =>
    let price : Option ℚ := cardPrice t
    let name := if t = "" then medicine else firstLine80 t
    let linkVal : Option String :=
      match link with
      | none => some url
      | some h => h
    match price with
    | some p => if p = 0 then none else
        some { pharmacy := pharmacy, medicine := name, price := p, url := linkVal }
    | none => none

/-- `scrape_apollo` (lines 77-117). -/
def scrape_apollo (medicine : String) (productText : Option String)
    (link : LinkLookup) : Option Candidate :=
  scrapeCard "Apollo Pharmacy"
    ("https://www.apollopharmacy.in/search-medicines/" ++ percentEncode medicine) medicine productText link

/-- `scrape_pharmeasy` (lines 119-159). -/
def scrape_pharmeasy (medicine : String) (productText : Option String)
    (link : LinkLookup) : Option Candidate :=
  scrapeCard "PharmEasy"
    ("https://pharmeasy.in/search/all?name=" ++ percentEncode medicine) medicine productText link

/-- `scrape_1mg`, inner loop over the first 20 anchor elements (lines
172-189): an anchor yields a candidate when its text contains `₹`, is longer
than 10 characters and the simple rupee regex matches; otherwise the loop
continues.  Each anchor is (text, href attribute). -/
def scrape1mgLoop (url : String) : List (String × Option String) → Option Candidate
  | [] => none
  | (t, href) :: rest =>
    if t.data.contains '₹' ∧ 10 < t.length then
      match findRupeeSimple t.data with
      | some p =>
        some { pharmacy := "1mg", medicine := firstLine80 t, price := numValue p,
               url := match href with
                      | some h => if h = "" then some url else some h
                      | none => some url }
      | none => scrape1mgLoop url rest
    else scrape1mgLoop url rest

/-- `scrape_1mg` (lines 161-198): `links = none` models the exception paths;
otherwise the loop runs over `all_links[:20]`. -/
def scrape_1mg (medicine : String)
    (links : Option (List (String × Option String))) : Option Candidate :=
  let url := "https://www.1mg.com/search/all?name=" ++ percentEncode medicine
  match links with
  | none => none
  | some ls => scrape1mgLoop url (ls.take 20)

/-! ## Orchestrator and aggregator (`search`, server.py lines 205-256) -/

/-- What one call of a scraper inside the orchestration loop does: raise an
exception, or return (`None` or a candidate dict). -/
inductive AdapterOutcome where
  | raised
  | returned (r : Option Candidate)
deriving DecidableEq

/-- The orchestration loop (lines 224-232): invoke every scraper in order,
`except: pass` around each call, and keep a returned candidate only when it
is truthy and `result.get('price')` is truthy (a nonzero price). -/
def collectResults (medicine : String) : List (String → AdapterOutcome) → List Candidate
  | [] => []
  | f :: rest =>
    match f medicine with
    | .raised => collectResults medicine rest
    | .returned none => collectResults medicine rest
    | .returned (some c) =>
      if c.price = 0 then collectResults medicine rest
      else c :: collectResults medicine rest

/-- Sort key of line 235: `x['price'] if x['price'] else float('inf')`. -/
def sortKey (c : Candidate) : WithTop ℚ :=
  if c.price = 0 then ⊤ else (c.price : WithTop ℚ)

/-- The comparison `results.sort` performs on two candidates. -/
def keyLE (a b : Candidate) : Prop := sortKey a ≤ sortKey b

instance : DecidableRel keyLE := fun a b =>
  inferInstanceAs (Decidable (sortKey a ≤ sortKey b))

instance : IsTotal Candidate keyLE := ⟨fun a b => le_total (sortKey a) (sortKey b)⟩

instance : IsTrans Candidate keyLE := ⟨fun _ _ _ hab hbc => le_trans hab hbc⟩

/-- `results.sort(key=...)` (line 235): Python's sort is stable, as is
insertion sort with a total preorder. -/
def sortResults (l : List Candidate) : List Candidate := List.insertionSort keyLE l

/-- The JSON body assembled on success (lines 247-254). -/
structure Response where
  medicine : String
  results : List Candidate
  bestPrice : ℚ
  savings : Option ℚ
  savingsPercentage : Option ℚ
  count : Nat
deriving DecidableEq, Repr

/-- Outcome of one `/api/search` request: 200, 400, 404, or the outermost
`except` boundary's 500. -/
inductive SearchResponse where
  | ok (r : Response)
  | badRequest (msg : String)
  | notFound
  | serverError
deriving DecidableEq

/-- Aggregation (lines 234-254): sort by the price key; empty → 404; with
more than one result, `savings = results[-1].price - results[0].price` and
`savingsPercentage = savings / results[-1].price * 100`.  When the last
price is `0` that division raises `ZeroDivisionError`, which the outermost
handler turns into a 500 — there is no zero guard in the code. -/
def aggregate (medicine : String) (collected : List Candidate) : SearchResponse :=
  match sortResults collected with
  | [] => SearchResponse.notFound
  | first :: rest =>
    let results := first :: rest
    let lastC := results.getLast (List.cons_ne_nil first rest)
    if rest = [] then
      SearchResponse.ok
        { medicine := medicine, results := results, bestPrice := first.price,
          savings := none, savingsPercentage := none, count := results.length }
    else if lastC.price = 0 then SearchResponse.serverError
    else
      SearchResponse.ok
        { medicine := medicine, results := results, bestPrice := first.price,
          savings := some (lastC.price - first.price),
          savingsPercentage := some ((lastC.price - first.price) / lastC.price * 100),
          count := results.length }

/-- The `/api/search` handler (lines 205-256), instrumented with the number
of adapter invocations it performs.  `body` is the request's `medicine`
value (`none` when the key is absent, in which case `data.get` yields `''`);
it is stripped, and a falsy (empty) result is rejected with a 400 before any
scraper runs.  Otherwise every configured scraper is invoked exactly once
(the loop never breaks early). -/
def searchInstr (scrapers : List (String → AdapterOutcome))
    (body : Option String) : SearchResponse × Nat :=
  let medicine := pyStrip (body.getD "")
  if medicine = "" then (SearchResponse.badRequest "Please enter a medicine name", 0)
  else (aggregate medicine (collectResults medicine scrapers), scrapers.length)

/-! ## Derived definitions used by the statements -/

/-- The processed text `clean_price` searches: commas, rupee signs and `Rs`
removed, then stripped. -/
def processed (s : String) : List Char :=
  pyStripList (removeRs (removeChar '₹' (removeChar ',' s.data)))

/-- Ascending order on candidates by price, the order the spec speaks of. -/
def priceLE (a b : Candidate) : Prop := a.price ≤ b.price

/-- The order-sensitive-free content of a response: its sorted price
sequence, best price, savings figures and count (`none` for the non-200
outcomes).  Everything the savings/idempotence properties compare. -/
def respSummary : SearchResponse → Option (List ℚ × ℚ × Option ℚ × Option ℚ × Nat)
  | SearchResponse.ok r =>
    some (r.results.map Candidate.price, r.bestPrice, r.savings, r.savingsPercentage, r.count)
  | _ => none

/-- The condition under which the 1mg loop accepts an anchor: its text
contains `₹`, is longer than 10 characters, and the simple rupee regex
matches. -/
def anchorHit (e : String × Option String) : Prop :=
  e.1.data.contains '₹' = true ∧ 10 < e.1.length ∧ (findRupeeSimple e.1.data).isSome = true

/-! ## Concrete data for witnesses and counterexamples -/

/-- Tie pair: two distinct candidates with the same price. -/
def candA : Candidate := { pharmacy := "Netmeds", medicine := "Dolo 650", price := 5, url := none }

/-- Second element of the tie pair. -/
def candB : Candidate := { pharmacy := "1mg", medicine := "Dolo 650", price := 5, url := none }

/-- A candidate priced 100. -/
def cand100 : Candidate := { pharmacy := "Netmeds", medicine := "X", price := 100, url := none }

/-- A candidate priced 150. -/
def cand150 : Candidate :=
  { pharmacy := "Apollo Pharmacy", medicine := "X", price := 150, url := none }

/-- A zero-priced candidate (what `scrape_netmeds` produces from `₹0`). -/
def candZero : Candidate := { pharmacy := "Netmeds", medicine := "Z", price := 0, url := none }

/-- A second zero-priced candidate. -/
def candZero2 : Candidate := { pharmacy := "1mg", medicine := "Z", price := 0, url := none }

/-- An adapter that always raises. -/
def alwaysRaise : String → AdapterOutcome := fun _ => AdapterOutcome.raised

/-- An adapter that always returns no result. -/
def alwaysNone : String → AdapterOutcome := fun _ => AdapterOutcome.returned none

/-- An adapter that always returns the given candidate. -/
def constFound (c : Candidate) : String → AdapterOutcome :=
  fun _ => AdapterOutcome.returned (some c)

/-! ## Helper lemmas: the price parser -/

theorem clean_price_some (s : String) (hs : s ≠ "") :
    clean_price (some s) = findNum (processed s) := by
  simp [clean_price, hs, processed]

theorem digitsToNat_nonneg (l : List Char) : (0 : ℚ) ≤ (digitsToNat l : ℚ) := by
  exact_mod_cast Nat.zero_le _

theorem numValue_nonneg (p : List Char × List Char) : 0 ≤ numValue p := by
  unfold numValue
  have h1 : (0 : ℚ) ≤ (digitsToNat p.1 : ℚ) := digitsToNat_nonneg _
  have h2 : (0 : ℚ) ≤ (digitsToNat p.2 : ℚ) / ((10 : ℚ) ^ p.2.length) := by
    apply div_nonneg (digitsToNat_nonneg _)
    positivity
  linarith

theorem findNum_nonneg (l : List Char) (q : ℚ) (h : findNum l = some q) : 0 ≤ q := by
  unfold findNum at h
  cases hf : findNumStr l with
  | none => simp [hf] at h
  | some p =>
    simp [hf] at h
    exact h ▸ numValue_nonneg p

theorem findNumStr_isSome (l : List Char) :
    (findNumStr l).isSome ↔ ∃ c ∈ l, Char.isDigit c := by
  induction l with
  | nil => simp [findNumStr]
  | cons c rest ih =>
    by_cases hc : c.isDigit
    · simp [findNumStr, hc]
    · simp [findNumStr, hc, ih]

theorem clean_price_nonneg (t : Option String) (q : ℚ) (h : clean_price t = some q) :
    0 ≤ q := by
  cases t with
  | none => simp [clean_price] at h
  | some s =>
    by_cases hs : s = ""
    · simp [clean_price, hs] at h
    · rw [clean_price_some s hs] at h
      exact findNum_nonneg _ _ h

/-- Evaluation helper for `clean_price` on concrete strings: the character
level work is decidable, the numeric value is assembled afterwards. -/
theorem clean_price_eval (s : String) (hs : s ≠ "") (ip fp : List Char)
    (h : findNumStr (processed s) = some (ip, fp)) :
    clean_price (some s) =
      some ((digitsToNat ip : ℚ) + (digitsToNat fp : ℚ) / ((10 : ℚ) ^ fp.length)) := by
  rw [clean_price_some s hs]
  simp [findNum, h, numValue]

/-! ## Claim theorems: price parser -/

/-- Claim C3: the four reference cases of the price parser.
`clean_price("₹1,234.50") = 1234.50`, `clean_price("Rs 99") = 99.0`,
`clean_price("") = None`, `clean_price("N/A") = None`. -/
theorem C3_parser_cases :
    clean_price (some "₹1,234.50") = some (2469 / 2) ∧
    clean_price (some "Rs 99") = some 99 ∧
    clean_price (some "") = none ∧
    clean_price (some "N/A") = none := by
  refine ⟨?_, ?_, by simp [clean_price], by decide⟩
  · have h : findNumStr (processed "₹1,234.50") = some (['1', '2', '3', '4'], ['5', '0']) := by
      decide
    rw [clean_price_eval "₹1,234.50" (by decide) _ _ h]
    have e1 : digitsToNat ['1', '2', '3', '4'] = 1234 := by decide
    have e2 : digitsToNat ['5', '0'] = 50 := by decide
    rw [e1, e2]
    norm_num
  · have h : findNumStr (processed "Rs 99") = some (['9', '9'], []) := by decide
    rw [clean_price_eval "Rs 99" (by decide) _ _ h]
    have e1 : digitsToNat ['9', '9'] = 99 := by decide
    have e2 : digitsToNat [] = 0 := by decide
    rw [e1, e2]
    norm_num

/-- Claim C8: `clean_price` is pure and total — in this embedding it is a
total function into `Option ℚ`, every Python operation it performs
(`replace`, `strip`, `re.search`, `float` of a matched `digits[.digits]`
group) being total; and it returns `some` exactly when the input is a
non-empty string whose processed text contains a digit, so absence of a
numeric pattern yields the normal `none` outcome, never an error. -/
theorem C8_parser_total (t : Option String) :
    (clean_price t).isSome ↔
      ∃ s, t = some s ∧ s ≠ "" ∧ ∃ c ∈ processed s, Char.isDigit c := by
  cases t with
  | none => simp [clean_price]
  | some s =>
    by_cases hs : s = ""
    · simp [clean_price, hs]
    · rw [clean_price_some s hs]
      simp only [findNum]
      have hmap : (Option.map numValue (findNumStr (processed s))).isSome
          = (findNumStr (processed s)).isSome := by
        cases findNumStr (processed s) <;> rfl
      rw [hmap, findNumStr_isSome]
      simp [hs]

/-- Claim C10: the numeric pattern is unsigned, so `clean_price` never
produces a negative value: every `some` result is nonnegative. -/
theorem C10_parser_nonneg (t : Option String) (q : ℚ) (h : clean_price t = some q) :
    0 ≤ q :=
  clean_price_nonneg t q h

/-- Witness for C10 at the concrete input `"Rs 99"`. -/
theorem C10_parser_nonneg_witness : (0 : ℚ) ≤ 99 := by
  have h : clean_price (some "Rs 99") = some 99 := by
    have hf : findNumStr (processed "Rs 99") = some (['9', '9'], []) := by decide
    rw [clean_price_eval "Rs 99" (by decide) _ _ hf]
    have e1 : digitsToNat ['9', '9'] = 99 := by decide
    have e2 : digitsToNat [] = 0 := by decide
    rw [e1, e2]
    norm_num
  exact C10_parser_nonneg (some "Rs 99") 99 h

/-! ## Helper lemmas: sorting and aggregation -/

theorem sortResults_perm (l : List Candidate) : List.Perm (sortResults l) l :=
  List.perm_insertionSort keyLE l

theorem sortResults_sorted (l : List Candidate) : List.Sorted keyLE (sortResults l) :=
  List.sorted_insertionSort keyLE l

theorem keyLE_iff_priceLE {a b : Candidate} (ha : a.price ≠ 0) (hb : b.price ≠ 0) :
    keyLE a b ↔ a.price ≤ b.price := by
  unfold keyLE sortKey
  rw [if_neg ha, if_neg hb]
  exact WithTop.coe_le_coe

theorem sorted_priceLE {l : List Candidate} (hs : List.Sorted keyLE l)
    (hnz : ∀ c ∈ l, c.price ≠ 0) : List.Sorted priceLE l := by
  refine List.Pairwise.imp_of_mem (fun ha hb hk => ?_) hs
  exact (keyLE_iff_priceLE (hnz _ ha) (hnz _ hb)).mp hk

/-- In a list sorted ascending by price, every element's price is bounded by
the last element's price. -/
theorem sorted_le_getLast :
    ∀ (l : List Candidate) (h : l ≠ []), List.Sorted priceLE l →
      ∀ c ∈ l, c.price ≤ (l.getLast h).price
  | [], h, _, _, hc => absurd rfl h
  | [x], _, _, c, hc => by
    simp at hc
    simp [hc, List.getLast]
  | x :: y :: t, _, hs, c, hc => by
    have hne : y :: t ≠ [] := by simp
    rw [List.getLast_cons hne]
    rcases List.mem_cons.mp hc with rfl | hc'
    · exact List.rel_of_sorted_cons hs _ (List.getLast_mem hne)
    · exact sorted_le_getLast (y :: t) hne hs.of_cons c hc'

/-- `sortKey` loses no price information: the price is recoverable. -/
theorem untop_sortKey (c : Candidate) : WithTop.untop' 0 (sortKey c) = c.price := by
  unfold sortKey
  by_cases h : c.price = 0
  · simp [h]
  · simp [h]

/-- The sorted key sequence — hence the sorted price sequence — depends only
on the multiset of collected candidates. -/
theorem sortResults_map_key_eq {l₁ l₂ : List Candidate} (hp : List.Perm l₁ l₂) :
    (sortResults l₁).map sortKey = (sortResults l₂).map sortKey := by
  have hperm : List.Perm ((sortResults l₁).map sortKey) ((sortResults l₂).map sortKey) :=
    List.Perm.map sortKey ((sortResults_perm l₁).trans (hp.trans (sortResults_perm l₂).symm))
  have hs₁ : List.Sorted (· ≤ ·) ((sortResults l₁).map sortKey) :=
    List.pairwise_map.mpr (sortResults_sorted l₁)
  have hs₂ : List.Sorted (· ≤ ·) ((sortResults l₂).map sortKey) :=
    List.pairwise_map.mpr (sortResults_sorted l₂)
  exact List.eq_of_perm_of_sorted hperm hs₁ hs₂

theorem sortResults_map_price_eq {l₁ l₂ : List Candidate} (hp : List.Perm l₁ l₂) :
    (sortResults l₁).map Candidate.price = (sortResults l₂).map Candidate.price := by
  have h1 : ∀ l : List Candidate,
      l.map Candidate.price = (l.map sortKey).map (WithTop.untop' 0) := by
    intro l
    rw [List.map_map]
    exact List.map_congr_left fun c _ => (untop_sortKey c).symm
  rw [h1, h1, sortResults_map_key_eq hp]

/-- Master description of `aggregate` on a list of candidates with nonzero
prices: the response is a 200 whose fields are read off the sorted list. -/
theorem aggregate_ok (med : String) (l : List Candidate) (hne : l ≠ [])
    (hnz : ∀ c ∈ l, c.price ≠ 0) :
    ∃ r first rest, sortResults l = first :: rest ∧
      aggregate med l = SearchResponse.ok r ∧
      r.medicine = med ∧
      r.results = first :: rest ∧
      r.bestPrice = first.price ∧
      r.count = (first :: rest).length ∧
      ((rest = [] ∧ r.savings = none ∧ r.savingsPercentage = none) ∨
        (rest ≠ [] ∧
          r.savings =
            some (((first :: rest).getLast (List.cons_ne_nil first rest)).price - first.price) ∧
          r.savingsPercentage =
            some ((((first :: rest).getLast (List.cons_ne_nil first rest)).price - first.price) /
              ((first :: rest).getLast (List.cons_ne_nil first rest)).price * 100))) := by
  cases h : sortResults l with
  | nil =>
    exfalso
    have h0 : [] = l := (h ▸ sortResults_perm l).nil_eq
    exact hne h0.symm
  | cons first rest =>
    have hmem : ∀ c ∈ first :: rest, c ∈ l := fun c hc =>
      (sortResults_perm l).mem_iff.mp (h ▸ hc)
    by_cases hr : rest = []
    · subst hr
      refine ⟨Response.mk med [first] first.price none none [first].length,
        first, [], rfl, ?_, rfl, rfl, rfl, rfl, Or.inl ⟨rfl, rfl, rfl⟩⟩
      unfold aggregate
      rw [h]
      dsimp only
      rw [if_pos rfl]
    · have hlast : ((first :: rest).getLast (List.cons_ne_nil first rest)).price ≠ 0 :=
        hnz _ (hmem _ (List.getLast_mem (List.cons_ne_nil first rest)))
      refine ⟨Response.mk med (first :: rest) first.price
          (some (((first :: rest).getLast (List.cons_ne_nil first rest)).price - first.price))
          (some ((((first :: rest).getLast (List.cons_ne_nil first rest)).price - first.price) /
            ((first :: rest).getLast (List.cons_ne_nil first rest)).price * 100))
          (first :: rest).length,
        first, rest, rfl, ?_, rfl, rfl, rfl, rfl, Or.inr ⟨hr, rfl, rfl⟩⟩
      unfold aggregate
      rw [h]
      dsimp only
      rw [if_neg hr, if_neg hlast]

/-- Claim C1: on a non-empty collection of candidate results the aggregator
returns a 200 whose `results` are a permutation of the input sorted
ascending by price, and whose `bestPrice` is the first (sorted) element's
price, the minimum price of the set. -/
theorem C1_ranking (med : String) (l : List Candidate) (hne : l ≠ [])
    (hpos : ∀ c ∈ l, 0 < c.price) :
    ∃ r, aggregate med l = SearchResponse.ok r ∧
      List.Sorted priceLE r.results ∧
      List.Perm r.results l ∧
      (∃ c₀, r.results.head? = some c₀ ∧ r.bestPrice = c₀.price) ∧
      r.bestPrice ∈ l.map Candidate.price ∧
      ∀ p ∈ l.map Candidate.price, r.bestPrice ≤ p := by
  have hnz : ∀ c ∈ l, c.price ≠ 0 := fun c hc => ne_of_gt (hpos c hc)
  obtain ⟨r, first, rest, hsort, hagg, _, hres, hbest, _, _⟩ := aggregate_ok med l hne hnz
  have hperm : List.Perm r.results l := by
    rw [hres, ← hsort]
    exact sortResults_perm l
  have hsorted : List.Sorted priceLE r.results := by
    rw [hres, ← hsort]
    exact sorted_priceLE (sortResults_sorted l)
      (fun c hc => hnz c ((sortResults_perm l).mem_iff.mp hc))
  refine ⟨r, hagg, hsorted, hperm, ⟨first, by rw [hres]; rfl, hbest⟩, ?_, ?_⟩
  · exact List.mem_map.mpr ⟨first, hperm.mem_iff.mp (hres ▸ List.mem_cons_self first rest),
      hbest.symm⟩
  · intro p hp
    obtain ⟨c, hcl, rfl⟩ := List.mem_map.mp hp
    have hc' : c ∈ first :: rest := hres ▸ hperm.mem_iff.mpr hcl
    rw [hbest]
    rcases List.mem_cons.mp hc' with rfl | hc''
    · exact le_refl _
    · exact List.rel_of_sorted_cons (hres ▸ hsorted) c hc''

/-- Witness for C1: two candidates priced 100 and 150. -/
theorem C1_ranking_witness :
    ([cand100, cand150] : List Candidate) ≠ [] ∧
    (∀ c ∈ [cand100, cand150], 0 < c.price) ∧
    ∃ r, aggregate "paracetamol" [cand100, cand150] = SearchResponse.ok r ∧
      List.Sorted priceLE r.results ∧
      List.Perm r.results [cand100, cand150] ∧
      (∃ c₀, r.results.head? = some c₀ ∧ r.bestPrice = c₀.price) ∧
      r.bestPrice ∈ List.map Candidate.price [cand100, cand150] ∧
      ∀ p ∈ List.map Candidate.price [cand100, cand150], r.bestPrice ≤ p :=
  ⟨by simp, by decide,
    C1_ranking "paracetamol" [cand100, cand150] (by simp) (by decide)⟩

/-- Claim C2: with at least two collected candidates the savings figures are
`last − first` and `(last − first) / last × 100` over the sorted results,
and with exactly one candidate both are absent (`None`), not zero. -/
theorem C2_savings (med : String) (l : List Candidate) (hpos : ∀ c ∈ l, 0 < c.price) :
    (2 ≤ l.length →
      ∃ r, aggregate med l = SearchResponse.ok r ∧
        ∃ cf cl, r.results.head? = some cf ∧ r.results.getLast? = some cl ∧
          r.savings = some (cl.price - cf.price) ∧
          r.savingsPercentage = some ((cl.price - cf.price) / cl.price * 100)) ∧
    (l.length = 1 →
      ∃ r, aggregate med l = SearchResponse.ok r ∧
        r.savings = none ∧ r.savingsPercentage = none) := by
  have hnz : ∀ c ∈ l, c.price ≠ 0 := fun c hc => ne_of_gt (hpos c hc)
  constructor
  · intro hlen
    have hne : l ≠ [] := by
      intro h
      rw [h] at hlen
      simp at hlen
    obtain ⟨r, first, rest, hsort, hagg, _, hres, _, _, hsav⟩ := aggregate_ok med l hne hnz
    have hlen' : (first :: rest).length = l.length := by
      rw [← hsort]
      exact (sortResults_perm l).length_eq
    have hrest : rest ≠ [] := by
      intro hEq
      rw [hEq] at hlen'
      simp at hlen'
      omega
    rcases hsav with ⟨h, _, _⟩ | ⟨_, hs, hp⟩
    · exact absurd h hrest
    · refine ⟨r, hagg, first, (first :: rest).getLast (List.cons_ne_nil first rest),
        by rw [hres]; rfl, ?_, hs, hp⟩
      rw [hres]
      exact List.getLast?_eq_getLast _ _
  · intro hlen
    have hne : l ≠ [] := by
      intro h
      rw [h] at hlen
      simp at hlen
    obtain ⟨r, first, rest, hsort, hagg, _, _, _, _, hsav⟩ := aggregate_ok med l hne hnz
    have hlen' : (first :: rest).length = l.length := by
      rw [← hsort]
      exact (sortResults_perm l).length_eq
    rcases hsav with ⟨_, hs, hp⟩ | ⟨hrest, _, _⟩
    · exact ⟨r, hagg, hs, hp⟩
    · exfalso
      rw [hlen] at hlen'
      rcases rest with _ | ⟨x, t⟩
      · exact hrest rfl
      · simp at hlen'

/-- Concrete aggregation of the prices 100 and 150, as the spec's example
has it: savings 50, savings percentage 100/3 ≈ 33.33. -/
theorem aggregate_100_150 :
    aggregate "m" [cand100, cand150] =
      SearchResponse.ok (Response.mk "m" [cand100, cand150] 100 (some 50) (some (100 / 3)) 2) := by
  have hsort : sortResults [cand100, cand150] = [cand100, cand150] := by decide
  unfold aggregate
  rw [hsort]
  dsimp only
  rw [if_neg (by decide : ¬([cand150] : List Candidate) = [])]
  rw [if_neg
    (by decide : ¬(([cand100, cand150].getLast (List.cons_ne_nil cand100 [cand150])).price = 0))]
  have h1 : ([cand100, cand150].getLast (List.cons_ne_nil cand100 [cand150])).price = 150 := by
    decide
  have h2 : cand100.price = 100 := by decide
  simp only [h1, h2, SearchResponse.ok.injEq, Response.mk.injEq]
  norm_num

/-- Witness for C2 at the concrete prices 100 and 150: both hypotheses hold
and the savings figures are 50 and 100/3 ≈ 33.33. -/
theorem C2_savings_witness :
    (∀ c ∈ [cand100, cand150], 0 < c.price) ∧
    2 ≤ ([cand100, cand150] : List Candidate).length ∧
    (∃ r, aggregate "m" [cand100, cand150] = SearchResponse.ok r ∧
      ∃ cf cl, r.results.head? = some cf ∧ r.results.getLast? = some cl ∧
        r.savings = some (cl.price - cf.price) ∧
        r.savingsPercentage = some ((cl.price - cf.price) / cl.price * 100)) ∧
    (∃ r, aggregate "m" [cand100, cand150] = SearchResponse.ok r ∧
      r.savings = some 50 ∧ r.savingsPercentage = some (100 / 3)) :=
  ⟨by decide, by decide,
    (C2_savings "m" [cand100, cand150] (by decide)).1 (by decide),
    ⟨Response.mk "m" [cand100, cand150] 100 (some 50) (some (100 / 3)) 2,
      aggregate_100_150, rfl, rfl⟩⟩

/-- Aggregation of the tie pair in collection order A, B: the stable sort
keeps A first. -/
theorem aggregate_tie_AB :
    aggregate "m" [candA, candB] =
      SearchResponse.ok (Response.mk "m" [candA, candB] 5 (some 0) (some 0) 2) := by
  have hsort : sortResults [candA, candB] = [candA, candB] := by decide
  unfold aggregate
  rw [hsort]
  dsimp only
  rw [if_neg (by decide : ¬([candB] : List Candidate) = [])]
  rw [if_neg
    (by decide : ¬(([candA, candB].getLast (List.cons_ne_nil candA [candB])).price = 0))]
  have h1 : ([candA, candB].getLast (List.cons_ne_nil candA [candB])).price = 5 := by decide
  have h2 : candA.price = 5 := by decide
  simp only [h1, h2, SearchResponse.ok.injEq, Response.mk.injEq]
  norm_num

/-- Aggregation of the tie pair in collection order B, A: the stable sort
keeps B first, so the output sequence differs. -/
theorem aggregate_tie_BA :
    aggregate "m" [candB, candA] =
      SearchResponse.ok (Response.mk "m" [candB, candA] 5 (some 0) (some 0) 2) := by
  have hsort : sortResults [candB, candA] = [candB, candA] := by decide
  unfold aggregate
  rw [hsort]
  dsimp only
  rw [if_neg (by decide : ¬([candA] : List Candidate) = [])]
  rw [if_neg
    (by decide : ¬(([candB, candA].getLast (List.cons_ne_nil candB [candA])).price = 0))]
  have h1 : ([candB, candA].getLast (List.cons_ne_nil candB [candA])).price = 5 := by decide
  have h2 : candB.price = 5 := by decide
  simp only [h1, h2, SearchResponse.ok.injEq, Response.mk.injEq]
  norm_num

/-- Counterexample to claim C9 as stated: two distinct candidates with equal
prices, permuted, give different output sequences, because Python's stable
sort breaks the tie by collection order. -/
theorem C9_counterexample :
    List.Perm [candA, candB] [candB, candA] ∧
    aggregate "m" [candA, candB] ≠ aggregate "m" [candB, candA] := by
  refine ⟨List.Perm.swap candB candA [], ?_⟩
  rw [aggregate_tie_AB, aggregate_tie_BA]
  intro h
  simp only [SearchResponse.ok.injEq, Response.mk.injEq] at h
  exact absurd h.2.1 (by decide)

/-- Two sorted lists that are permutations of each other coincide when their
prices are pairwise distinct. -/
theorem sorted_nodup_eq (m₁ : List Candidate) :
    ∀ m₂, List.Perm m₁ m₂ → List.Sorted priceLE m₁ → List.Sorted priceLE m₂ →
      (m₁.map Candidate.price).Nodup → m₁ = m₂ := by
  induction m₁ with
  | nil =>
    intro m₂ hp _ _ _
    exact hp.nil_eq
  | cons a t ih =>
    intro m₂ hp hs₁ hs₂ hnd
    cases m₂ with
    | nil =>
      exact absurd hp.symm.nil_eq (by simp)
    | cons b u =>
      have hab : a = b := by
        have ha2 : a ∈ b :: u := hp.mem_iff.mp (List.mem_cons_self a t)
        have hb1 : b ∈ a :: t := hp.mem_iff.mpr (List.mem_cons_self b u)
        rcases List.mem_cons.mp ha2 with h | ha3
        · exact h
        rcases List.mem_cons.mp hb1 with h | hb3
        · exact h.symm
        exfalso
        have h1 : a.price ≤ b.price := List.rel_of_sorted_cons hs₁ b hb3
        have h2 : b.price ≤ a.price := List.rel_of_sorted_cons hs₂ a ha3
        have heqp : a.price = b.price := le_antisymm h1 h2
        have hmem : a.price ∈ t.map Candidate.price := List.mem_map.mpr ⟨b, hb3, heqp.symm⟩
        rw [List.map_cons, List.nodup_cons] at hnd
        exact hnd.1 hmem
      subst hab
      have ht : t = u := by
        refine ih u hp.cons_inv hs₁.of_cons hs₂.of_cons ?_
        rw [List.map_cons, List.nodup_cons] at hnd
        exact hnd.2
      rw [ht]

/-- Claim C9, amended: permuting the collected candidates leaves the sorted
price sequence, best price, savings figures and count unchanged; the full
output (including tie order among equal-priced candidates) is unchanged
whenever all prices are distinct. -/
theorem C9_amended (med : String) (l₁ l₂ : List Candidate) (hperm : List.Perm l₁ l₂)
    (hpos : ∀ c ∈ l₁, 0 < c.price) :
    respSummary (aggregate med l₁) = respSummary (aggregate med l₂) ∧
    ((l₁.map Candidate.price).Nodup → aggregate med l₁ = aggregate med l₂) := by
  have hpos₂ : ∀ c ∈ l₂, 0 < c.price := fun c hc => hpos c (hperm.mem_iff.mpr hc)
  have hnz₁ : ∀ c ∈ l₁, c.price ≠ 0 := fun c hc => ne_of_gt (hpos c hc)
  have hnz₂ : ∀ c ∈ l₂, c.price ≠ 0 := fun c hc => ne_of_gt (hpos₂ c hc)
  have hmap : (sortResults l₁).map Candidate.price = (sortResults l₂).map Candidate.price :=
    sortResults_map_price_eq hperm
  constructor
  · by_cases hne : l₁ = []
    · subst hne
      have h2 : l₂ = [] := hperm.nil_eq.symm
      subst h2
      rfl
    · have hne₂ : l₂ ≠ [] := by
        intro h
        subst h
        exact hne hperm.symm.nil_eq.symm
      obtain ⟨r₁, f₁, t₁, hsort₁, hagg₁, hmed₁, hres₁, hbest₁, hcount₁, hsav₁⟩ :=
        aggregate_ok med l₁ hne hnz₁
      obtain ⟨r₂, f₂, t₂, hsort₂, hagg₂, hmed₂, hres₂, hbest₂, hcount₂, hsav₂⟩ :=
        aggregate_ok med l₂ hne₂ hnz₂
      rw [hsort₁, hsort₂] at hmap
      have hf : f₁.price = f₂.price := by
        have h := congrArg List.head? hmap
        simpa using h
      have hlen : (f₁ :: t₁).length = (f₂ :: t₂).length := by
        have h := congrArg List.length hmap
        simpa using h
      have hlast : ((f₁ :: t₁).getLast (List.cons_ne_nil f₁ t₁)).price =
          ((f₂ :: t₂).getLast (List.cons_ne_nil f₂ t₂)).price := by
        have h := congrArg List.getLast? hmap
        rw [List.getLast?_eq_getLast _ (by simp), List.getLast?_eq_getLast _ (by simp)] at h
        have h' := Option.some.inj h
        rw [List.getLast_map, List.getLast_map] at h'
        exact h'
      have htEq : t₁ = [] ↔ t₂ = [] := by
        simp only [List.length_cons, Nat.succ.injEq] at hlen
        constructor <;> intro h <;> [skip; skip]
        · rw [h] at hlen
          exact List.length_eq_zero.mp hlen.symm
        · rw [h] at hlen
          exact List.length_eq_zero.mp hlen
      rw [hagg₁, hagg₂]
      simp only [respSummary, Option.some.injEq, Prod.mk.injEq]
      refine ⟨?_, ?_, ?_, ?_, ?_⟩
      · rw [hres₁, hres₂]
        exact hmap
      · rw [hbest₁, hbest₂]
        exact hf
      · rcases hsav₁ with ⟨ht₁, hs₁', _⟩ | ⟨ht₁, hs₁', _⟩ <;>
          rcases hsav₂ with ⟨ht₂, hs₂', _⟩ | ⟨ht₂, hs₂', _⟩
        · rw [hs₁', hs₂']
        · exact absurd (htEq.mp ht₁) ht₂
        · exact absurd (htEq.mpr ht₂) ht₁
        · rw [hs₁', hs₂', hlast, hf]
      · rcases hsav₁ with ⟨ht₁, _, hp₁'⟩ | ⟨ht₁, _, hp₁'⟩ <;>
          rcases hsav₂ with ⟨ht₂, _, hp₂'⟩ | ⟨ht₂, _, hp₂'⟩
        · rw [hp₁', hp₂']
        · exact absurd (htEq.mp ht₁) ht₂
        · exact absurd (htEq.mpr ht₂) ht₁
        · rw [hp₁', hp₂', hlast, hf]
      · rw [hcount₁, hcount₂, hlen]
  · intro hnd
    have hEq : sortResults l₁ = sortResults l₂ := by
      refine sorted_nodup_eq (sortResults l₁) (sortResults l₂)
        (((sortResults_perm l₁).trans hperm).trans (sortResults_perm l₂).symm) ?_ ?_ ?_
      · exact sorted_priceLE (sortResults_sorted l₁)
          (fun c hc => hnz₁ c ((sortResults_perm l₁).mem_iff.mp hc))
      · exact sorted_priceLE (sortResults_sorted l₂)
          (fun c hc => hnz₂ c ((sortResults_perm l₂).mem_iff.mp hc))
      · exact (((sortResults_perm l₁).map Candidate.price).nodup_iff).mpr hnd
    unfold aggregate
    rw [hEq]

/-- Witness for C9 (amended) at a concrete permuted pair with distinct
prices 100 and 150. -/
theorem C9_amended_witness :
    List.Perm [cand150, cand100] [cand100, cand150] ∧
    (∀ c ∈ [cand150, cand100], 0 < c.price) ∧
    (List.map Candidate.price [cand150, cand100]).Nodup ∧
    respSummary (aggregate "m" [cand150, cand100]) =
      respSummary (aggregate "m" [cand100, cand150]) ∧
    aggregate "m" [cand150, cand100] = aggregate "m" [cand100, cand150] := by
  have hperm : List.Perm [cand150, cand100] [cand100, cand150] :=
    List.Perm.swap cand100 cand150 []
  have hpos : ∀ c ∈ [cand150, cand100], 0 < c.price := by decide
  have h := C9_amended "m" [cand150, cand100] [cand100, cand150] hperm hpos
  exact ⟨hperm, hpos, by decide, h.1, h.2 (by decide)⟩

/-- Counterexample to claim C5 as stated: the single-character query `"a"`
is not rejected — the handler invokes the configured adapter (count 1) and,
with no surviving result, answers 404, not 400. -/
theorem C5_counterexample :
    searchInstr [alwaysNone] (some "a") = (SearchResponse.notFound, 1) := by decide

/-- Claim C5, amended: only a query that strips to the empty string (absent,
empty, or whitespace-only `medicine`) is rejected with a 400 and invokes no
adapter; a single-character query passes the `if not medicine` check. -/
theorem C5_amended (scrapers : List (String → AdapterOutcome)) (body : Option String)
    (h : pyStrip (body.getD "") = "") :
    searchInstr scrapers body = (SearchResponse.badRequest "Please enter a medicine name", 0) := by
  unfold searchInstr
  rw [if_pos h]

/-- Witness for C5 (amended) at the whitespace-only query. -/
theorem C5_amended_witness :
    pyStrip ((some "   ").getD "") = "" ∧
    searchInstr [alwaysRaise] (some "   ") =
      (SearchResponse.badRequest "Please enter a medicine name", 0) :=
  ⟨by decide, C5_amended [alwaysRaise] (some "   ") (by decide)⟩

/-- Every candidate the orchestration loop keeps has a nonzero price — the
`result.get('price')` truthiness filter. -/
theorem collectResults_price_ne_zero (med : String) :
    ∀ fs : List (String → AdapterOutcome), ∀ c ∈ collectResults med fs, c.price ≠ 0 := by
  intro fs
  induction fs with
  | nil =>
    intro c hc
    simp [collectResults] at hc
  | cons f rest ih =>
    intro c hc
    simp only [collectResults] at hc
    cases hf : f med with
    | raised =>
      rw [hf] at hc
      exact ih c hc
    | returned r =>
      cases r with
      | none =>
        rw [hf] at hc
        exact ih c hc
      | some c' =>
        rw [hf] at hc
        dsimp only at hc
        by_cases hz : c'.price = 0
        · rw [if_pos hz] at hc
          exact ih c hc
        · rw [if_neg hz] at hc
          rcases List.mem_cons.mp hc with rfl | hc'
          · exact hz
          · exact ih c hc'

/-- Counterexample to claim C6 as stated: on two zero-priced candidates the
savings computation does not define `savingsPercentage` as 0 — the division
by the zero maximum price raises `ZeroDivisionError`, surfaced by the
outermost handler as a 500. -/
theorem C6_counterexample :
    aggregate "m" [candZero, candZero2] = SearchResponse.serverError := by decide

/-- Claim C6, amended: the code has no zero guard (a zero maximum price
would raise, becoming a 500), but the orchestrator's truthiness filter keeps
zero-priced candidates out of the collected sequence, so within the handler
the savings computation is total: a request always ends in 400, 404 or 200,
never in the division-by-zero 500. -/
theorem C6_amended (scrapers : List (String → AdapterOutcome)) (body : Option String) :
    (∃ m, (searchInstr scrapers body).1 = SearchResponse.badRequest m) ∨
    (searchInstr scrapers body).1 = SearchResponse.notFound ∨
    ∃ r, (searchInstr scrapers body).1 = SearchResponse.ok r := by
  unfold searchInstr
  by_cases h : pyStrip (body.getD "") = ""
  · rw [if_pos h]
    exact Or.inl ⟨_, rfl⟩
  · rw [if_neg h]
    set med := pyStrip (body.getD "") with hmed
    set l := collectResults med scrapers with hl
    have hnz : ∀ c ∈ l, c.price ≠ 0 := fun c hc =>
      collectResults_price_ne_zero med scrapers c hc
    by_cases hne : l = []
    · refine Or.inr (Or.inl ?_)
      have hsort : sortResults l = [] := by
        rw [hne]
        rfl
      unfold aggregate
      rw [hsort]
    · obtain ⟨r, _, _, _, hagg, _⟩ := aggregate_ok med l hne hnz
      exact Or.inr (Or.inr ⟨r, hagg⟩)

/-- The orchestration loop distributes over concatenation of the scraper
list. -/
theorem collectResults_append (med : String) (fs gs : List (String → AdapterOutcome)) :
    collectResults med (fs ++ gs) = collectResults med fs ++ collectResults med gs := by
  induction fs with
  | nil => simp [collectResults]
  | cons f rest ih =>
    simp only [List.cons_append, collectResults]
    cases hf : f med with
    | raised => exact ih
    | returned r =>
      cases r with
      | none => exact ih
      | some c' =>
        dsimp only
        by_cases hz : c'.price = 0
        · rw [if_pos hz, if_pos hz]
          exact ih
        · rw [if_neg hz, if_neg hz]
          simp only [List.append_eq]
          rw [ih, List.cons_append]

/-- Claim C7: an adapter that always raises or always returns no result
contributes nothing — the collected sequence, and hence the whole response,
is the one obtained with that adapter removed; the remaining adapters are
all still invoked. -/
theorem C7_isolation (fs gs : List (String → AdapterOutcome))
    (bad : String → AdapterOutcome)
    (hbad : ∀ m, bad m = AdapterOutcome.raised ∨ bad m = AdapterOutcome.returned none)
    (body : Option String) (med : String) :
    collectResults med (fs ++ bad :: gs) = collectResults med (fs ++ gs) ∧
    (searchInstr (fs ++ bad :: gs) body).1 = (searchInstr (fs ++ gs) body).1 := by
  have hbadstep : ∀ m : String, collectResults m (bad :: gs) = collectResults m gs := by
    intro m
    simp only [collectResults]
    rcases hbad m with h | h <;> rw [h]
  have hcol : ∀ m : String, collectResults m (fs ++ bad :: gs) = collectResults m (fs ++ gs) := by
    intro m
    rw [collectResults_append, collectResults_append, hbadstep]
  refine ⟨hcol med, ?_⟩
  unfold searchInstr
  by_cases h : pyStrip (body.getD "") = ""
  · rw [if_pos h, if_pos h]
  · rw [if_neg h, if_neg h]
    dsimp only
    rw [hcol]

/-- Witness for C7: a raising adapter between two healthy ones changes
nothing in the collected sequence or the response. -/
theorem C7_isolation_witness :
    (∀ m, alwaysRaise m = AdapterOutcome.raised ∨
      alwaysRaise m = AdapterOutcome.returned none) ∧
    collectResults "x" ([constFound cand100] ++ alwaysRaise :: [constFound cand150]) =
      collectResults "x" ([constFound cand100] ++ [constFound cand150]) ∧
    (searchInstr ([constFound cand100] ++ alwaysRaise :: [constFound cand150]) (some "x")).1 =
      (searchInstr ([constFound cand100] ++ [constFound cand150]) (some "x")).1 := by
  have h := C7_isolation [constFound cand100] [constFound cand150] alwaysRaise
    (fun m => Or.inl rfl) (some "x") "x"
  exact ⟨fun m => Or.inl rfl, h.1, h.2⟩

/-! ## Helper lemmas: the source adapters -/

theorem cardPrice_nonneg (t : String) (q : ℚ) (h : cardPrice t = some q) : 0 ≤ q := by
  unfold cardPrice at h
  cases hg : findRupeeGrouped t.data with
  | none =>
    rw [hg] at h
    exact absurd h (by simp)
  | some g =>
    rw [hg] at h
    exact clean_price_nonneg _ _ h

theorem scrapeCard_isSome (ph url med : String) (pt : Option String) (lk : LinkLookup) :
    (scrapeCard ph url med pt lk).isSome ↔
      ∃ t, pt = some t ∧ ∃ q, cardPrice t = some q ∧ 0 < q := by
  cases pt with
  | none => simp [scrapeCard]
  | some t =>
    cases hp : cardPrice t with
    | none => simp [scrapeCard, hp]
    | some p =>
      by_cases hz : p = 0
      · subst hz
        simp [scrapeCard, hp]
      · have hpos : 0 < p := lt_of_le_of_ne (cardPrice_nonneg t p hp) (Ne.symm hz)
        simp [scrapeCard, hp, hz, hpos]

theorem scrapeCard_price_pos (ph url med : String) (pt : Option String) (lk : LinkLookup)
    (c : Candidate) (h : scrapeCard ph url med pt lk = some c) : 0 < c.price := by
  cases pt with
  | none => exact absurd h (by simp [scrapeCard])
  | some t =>
    simp only [scrapeCard] at h
    cases hp : cardPrice t with
    | none =>
      rw [hp] at h
      exact absurd h (by simp)
    | some p =>
      rw [hp] at h
      dsimp only at h
      by_cases hz : p = 0
      · rw [if_pos hz] at h
        exact absurd h (by simp)
      · rw [if_neg hz] at h
        have hc : c.price = p := by
          have := Option.some.inj h
          rw [← this]
        rw [hc]
        exact lt_of_le_of_ne (cardPrice_nonneg t p hp) (Ne.symm hz)

theorem scrape_netmeds_isSome (med : String) (pt : Option String) :
    (scrape_netmeds med pt).isSome ↔
      ∃ t, pt = some t ∧ (findRupeeSimple t.data).isSome := by
  cases pt with
  | none => simp [scrape_netmeds]
  | some t =>
    cases hf : findRupeeSimple t.data with
    | none => simp [scrape_netmeds, hf]
    | some p => simp [scrape_netmeds, hf]

theorem scrape_netmeds_price_nonneg (med : String) (pt : Option String) (c : Candidate)
    (h : scrape_netmeds med pt = some c) : 0 ≤ c.price := by
  cases pt with
  | none => exact absurd h (by simp [scrape_netmeds])
  | some t =>
    simp only [scrape_netmeds] at h
    cases hf : findRupeeSimple t.data with
    | none =>
      rw [hf] at h
      exact absurd h (by simp)
    | some p =>
      rw [hf] at h
      have hc : c.price = numValue p := by
        have := Option.some.inj h
        rw [← this]
      rw [hc]
      exact numValue_nonneg p

theorem scrape1mgLoop_isSome (url : String) (ls : List (String × Option String)) :
    (scrape1mgLoop url ls).isSome ↔ ∃ e ∈ ls, anchorHit e := by
  induction ls with
  | nil => simp [scrape1mgLoop]
  | cons e rest ih =>
    obtain ⟨t, href⟩ := e
    by_cases hc : (t.data.contains '₹' = true ∧ 10 < t.length)
    · cases hf : findRupeeSimple t.data with
      | none =>
        have hred : scrape1mgLoop url ((t, href) :: rest) = scrape1mgLoop url rest := by
          simp only [scrape1mgLoop, if_pos hc, hf]
        rw [hred, ih]
        constructor
        · intro ⟨e, he, hhit⟩
          exact ⟨e, List.mem_cons_of_mem _ he, hhit⟩
        · intro ⟨e, he, hhit⟩
          rcases List.mem_cons.mp he with rfl | he'
          · exact absurd hhit.2.2 (by simp [hf])
          · exact ⟨e, he', hhit⟩
      | some p =>
        have hred : (scrape1mgLoop url ((t, href) :: rest)).isSome = true := by
          simp only [scrape1mgLoop, if_pos hc, hf]
          rfl
        rw [hred]
        simp only [true_iff]
        exact ⟨(t, href), List.mem_cons_self _ _, hc.1, hc.2, by simp [hf]⟩
    · have hred : scrape1mgLoop url ((t, href) :: rest) = scrape1mgLoop url rest := by
        simp only [scrape1mgLoop, if_neg hc]
      rw [hred, ih]
      constructor
      · intro ⟨e, he, hhit⟩
        exact ⟨e, List.mem_cons_of_mem _ he, hhit⟩
      · intro ⟨e, he, hhit⟩
        rcases List.mem_cons.mp he with rfl | he'
        · exact absurd ⟨hhit.1, hhit.2.1⟩ hc
        · exact ⟨e, he', hhit⟩

theorem scrape1mgLoop_price_nonneg (url : String) (ls : List (String × Option String))
    (c : Candidate) (h : scrape1mgLoop url ls = some c) : 0 ≤ c.price := by
  induction ls with
  | nil => exact absurd h (by simp [scrape1mgLoop])
  | cons e rest ih =>
    obtain ⟨t, href⟩ := e
    simp only [scrape1mgLoop] at h
    by_cases hc : (t.data.contains '₹' = true ∧ 10 < t.length)
    · rw [if_pos hc] at h
      cases hf : findRupeeSimple t.data with
      | none =>
        rw [hf] at h
        exact ih h
      | some p =>
        rw [hf] at h
        dsimp only at h
        have heq := Option.some.inj h
        rw [← heq]
        exact numValue_nonneg p
    · rw [if_neg hc] at h
      exact ih h

/-! ## Claim C4 -/

/-- Counterexample to claim C4 as stated: `scrape_netmeds` does not check
the parsed value for positivity — on a product container whose text is `₹0`
it returns a candidate with price exactly 0. -/
theorem C4_counterexample :
    scrape_netmeds "para" (some "₹0") =
      some (Candidate.mk "Netmeds" "₹0" 0
        (some "https://www.netmeds.com/catalogsearch/result/para/all")) := by
  have hf : findRupeeSimple ("₹0" : String).data = some (['0'], []) := by decide
  have h0 : numValue (['0'], []) = 0 := by
    unfold numValue
    dsimp only
    have e1 : digitsToNat ['0'] = 0 := by decide
    have e2 : digitsToNat [] = 0 := by decide
    rw [e1, e2]
    norm_num
  simp only [scrape_netmeds, hf, h0]
  decide

/-- Claim C4, amended: Apollo and PharmEasy return a candidate iff a
container was found and its price text parses to a strictly positive value,
and their candidates always have positive price; Netmeds returns a candidate
iff a container was found and the rupee-anchored pattern matches, and 1mg
iff one of the first 20 anchors hits its acceptance test — in both cases
without a positivity check, so their prices are only guaranteed nonnegative
(they can be exactly 0, which the orchestrator later filters out). -/
theorem C4_amended (med : String) (pt : Option String) (lk : LinkLookup)
    (links : Option (List (String × Option String))) :
    ((scrape_apollo med pt lk).isSome ↔
      ∃ t, pt = some t ∧ ∃ q, cardPrice t = some q ∧ 0 < q) ∧
    (∀ c, scrape_apollo med pt lk = some c → 0 < c.price) ∧
    ((scrape_pharmeasy med pt lk).isSome ↔
      ∃ t, pt = some t ∧ ∃ q, cardPrice t = some q ∧ 0 < q) ∧
    (∀ c, scrape_pharmeasy med pt lk = some c → 0 < c.price) ∧
    ((scrape_netmeds med pt).isSome ↔
      ∃ t, pt = some t ∧ (findRupeeSimple t.data).isSome) ∧
    (∀ c, scrape_netmeds med pt = some c → 0 ≤ c.price) ∧
    ((scrape_1mg med links).isSome ↔
      ∃ ls, links = some ls ∧ ∃ e ∈ ls.take 20, anchorHit e) ∧
    (∀ c, scrape_1mg med links = some c → 0 ≤ c.price) := by
  refine ⟨scrapeCard_isSome _ _ _ _ _, fun c h => scrapeCard_price_pos _ _ _ _ _ c h,
    scrapeCard_isSome _ _ _ _ _, fun c h => scrapeCard_price_pos _ _ _ _ _ c h,
    scrape_netmeds_isSome _ _, fun c h => scrape_netmeds_price_nonneg _ _ c h, ?_, ?_⟩
  · cases links with
    | none => simp [scrape_1mg]
    | some ls =>
      simp only [scrape_1mg, Option.some.injEq]
      rw [scrape1mgLoop_isSome]
      constructor
      · intro h
        exact ⟨ls, rfl, h⟩
      · intro ⟨ls', hls, h⟩
        subst hls
        exact h
  · intro c h
    cases links with
    | none => exact absurd h (by simp [scrape_1mg])
    | some ls =>
      simp only [scrape_1mg] at h
      exact scrape1mgLoop_price_nonneg _ _ c h

/-- Witness for C4 (amended): a found Apollo card with text `₹50` yields a
candidate, and a found Netmeds container with text `₹0` yields one too (the
zero-price acceptance the amendment records). -/
theorem C4_amended_witness :
    (scrape_apollo "m" (some "₹50") none).isSome ∧
    (scrape_netmeds "m" (some "₹0")).isSome := by
  have h₁ := (C4_amended "m" (some "₹50") none none).1
  have h₂ := (C4_amended "m" (some "₹0") none none).2.2.2.2.1
  constructor
  · refine h₁.mpr ⟨"₹50", rfl, 50, ?_, by norm_num⟩
    have hg : findRupeeGrouped ("₹50" : String).data = some ['5', '0'] := by decide
    unfold cardPrice
    rw [hg]
    dsimp only
    have hfs : findNumStr (processed ⟨['5', '0']⟩) = some (['5', '0'], []) := by decide
    rw [clean_price_eval ⟨['5', '0']⟩ (by decide) _ _ hfs]
    have e1 : digitsToNat ['5', '0'] = 50 := by decide
    have e2 : digitsToNat [] = 0 := by decide
    rw [e1, e2]
    norm_num
  · exact h₂.mpr ⟨"₹0", rfl, by decide⟩

end EasyMeds
